import Mathlib

/-!
Shallow embedding of the ROOMANCE matchmaking backend (`src/main.py`).

The core state is three MongoDB collections, modelled as lists of records:
`match` (the like/dislike action ledger), `profile`, and `message`.
User identities (`ObjectId`) are opaque and modelled as `Nat`; timestamps
(`datetime.utcnow()`) are modelled as `Nat` values supplied explicitly to
each operation.  Each HTTP handler becomes a state-passing function on `DB`;
a handler that raises `HTTPException` returns `Except.error` together with
the unchanged state.
-/

namespace Roomance

/-- The `action` field of a ledger record; the pydantic schema restricts it
to the pattern `^(like|dislike)$`. -/
inductive Action where
  | like
  | dislike
deriving DecidableEq

/-- One document of the `match` collection: a directional decision by
`user_id` toward `target_id`. -/
structure ActionRecord where
  user_id : Nat
  target_id : Nat
  action : Action
  created_at : Nat
  updated_at : Nat
deriving DecidableEq

/-- One document of the `profile` collection. -/
structure Profile where
  user_id : Nat
  nickname : String
  bio : String
  tags : List String
  photos : List String
  age : Option Nat
  created_at : Nat
  updated_at : Nat
deriving DecidableEq

/-- Payload of `POST /profile/details` (`ProfileDetails` pydantic model). -/
structure ProfileDetails where
  user_id : Nat
  nickname : String
  bio : String
  tags : List String
  photos : List String
  age : Option Nat
deriving DecidableEq

/-- One document of the `message` collection. -/
structure Message where
  sender_id : Nat
  receiver_id : Nat
  text : String
  created_at : Nat
deriving DecidableEq

/-- An `HTTPException` raised by a handler. -/
structure HTTPError where
  status_code : Nat
  detail : String
deriving DecidableEq

deriving instance DecidableEq for Except

/-- The whole mutable store: the three collections the core touches. -/
structure DB where
  matchColl : List ActionRecord
  profileColl : List Profile
  messageColl : List Message
deriving DecidableEq

/-- The rejection raised on a self-targeted decision
(`HTTPException(status_code=400, detail="Cannot like yourself")`). -/
def invalidActionError : HTTPError := ⟨400, "Cannot like yourself"⟩

/-- Does a ledger record belong to the ordered pair `(u, t)`? -/
def isPair (u t : Nat) (r : ActionRecord) : Bool :=
  r.user_id == u && r.target_id == t

/-- Model of `db["match"].update_one(filter, set/setOnInsert, upsert=True)`:
modify the first record of the pair `(u, t)` in place (set `action` and
`updated_at`, keep `created_at`), or append a fresh record whose
`created_at` and `updated_at` are both `now`. -/
def upsertAction : List ActionRecord → Nat → Nat → Action → Nat → List ActionRecord
  | [], u, t, a, now => [⟨u, t, a, now, now⟩]
  | r :: rs, u, t, a, now =>
      if isPair u t r then
        { r with action := a, updated_at := now } :: rs
      else
        r :: upsertAction rs u t a now

/-- Handler `POST /profiles/like` (`like_profile`): reject self-likes, upsert the
action record, then (for a like) check whether the reciprocal like already
exists.  Returns the new state and the `matched` flag, or the unchanged
state and the 400 error. -/
def like_profile (db : DB) (user_id target_id : Nat) (action : Action) (now : Nat) :
    DB × Except HTTPError Bool :=
  if user_id = target_id then
    (db, .error invalidActionError)
  else
    let matches' := upsertAction db.matchColl user_id target_id action now
    let matched := action == .like &&
      matches'.any fun o =>
        o.user_id == target_id && o.target_id == user_id && o.action == Action.like
    ({ db with matchColl := matches' }, .ok matched)

/-- Model of `db["profile"].update_one` keyed on `user_id` with upsert:
overwrite the first profile of the user in place (all payload fields and
`updated_at`; `created_at` preserved), or append a fresh profile. -/
def upsertProfile : List Profile → ProfileDetails → Nat → List Profile
  | [], d, now => [⟨d.user_id, d.nickname, d.bio, d.tags, d.photos, d.age, now, now⟩]
  | p :: ps, d, now =>
      if p.user_id == d.user_id then
        { p with nickname := d.nickname, bio := d.bio, tags := d.tags,
                 photos := d.photos, age := d.age, updated_at := now } :: ps
      else
        p :: upsertProfile ps d now

/-- Handler `POST /profile/details` (`create_or_complete_profile`): upsert the
profile document, then return it. -/
def create_or_complete_profile (db : DB) (d : ProfileDetails) (now : Nat) :
    DB × Option Profile :=
  let profiles' := upsertProfile db.profileColl d now
  ({ db with profileColl := profiles' },
   profiles'.find? fun p => p.user_id == d.user_id)

/-- Handler `POST /chats/send` (`send_message`): append an immutable message with
server-assigned `created_at` and return it. -/
def send_message (db : DB) (user_id peer_id : Nat) (text : String) (now : Nat) :
    DB × Message :=
  ({ db with messageColl := db.messageColl ++ [⟨user_id, peer_id, text, now⟩] },
   ⟨user_id, peer_id, text, now⟩)

/-- The `acted_ids` set built by `next_profile`: every `target_id` the user
has any recorded decision on, like or dislike. -/
def actedIds (db : DB) (user_id : Nat) : List Nat :=
  (db.matchColl.filter fun m => m.user_id == user_id).map fun m => m.target_id

/-- The `.sort("updated_at", -1)` order on profiles: `a` may come before `b`
when `a` is at least as recently updated. -/
def moreRecent (a b : Profile) : Prop :=
  b.updated_at ≤ a.updated_at

instance : DecidableRel moreRecent := fun _ _ => Nat.decLe _ _

instance : IsTotal Profile moreRecent :=
  ⟨fun a b => Nat.le_total b.updated_at a.updated_at⟩

instance : IsTrans Profile moreRecent :=
  ⟨fun _ _ _ hab hbc => Nat.le_trans hbc hab⟩

/-- Handler `GET /profiles/next` (`next_profile`): among profiles of other users,
sorted by `updated_at` descending (a stable sort models MongoDB's sort),
return the first whose owner the caller has not yet acted upon; `none`
models the "No more profiles" sentinel. -/
def next_profile (db : DB) (user_id : Nat) : Option Profile :=
  let acted := actedIds db user_id
  let candidates :=
    (db.profileColl.filter fun p => !(p.user_id == user_id)).insertionSort moreRecent
  candidates.find? fun c => !(acted.contains c.user_id)

/-- Handler `GET /chats/list` (`list_chats`): for each like of the caller, include
the target's profile when the reciprocal like exists and a profile document
for the target is found; a target without a stored profile is skipped. -/
def list_chats (db : DB) (user_id : Nat) : List Profile :=
  (db.matchColl.filter fun r => r.user_id == user_id && r.action == Action.like).filterMap
    fun r =>
      if db.matchColl.any fun o =>
          o.user_id == r.target_id && o.target_id == user_id && o.action == Action.like
      then db.profileColl.find? fun p => p.user_id == r.target_id
      else none

/-- Does message `m` belong to the unordered conversation pair `(u, p)`? -/
def inConversation (u p : Nat) (m : Message) : Bool :=
  (m.sender_id == u && m.receiver_id == p) || (m.sender_id == p && m.receiver_id == u)

/-- The `.sort("created_at", 1)` order on messages: ascending timestamps. -/
def olderFirst (a b : Message) : Prop :=
  a.created_at ≤ b.created_at

instance : DecidableRel olderFirst := fun _ _ => Nat.decLe _ _

instance : IsTotal Message olderFirst :=
  ⟨fun a b => Nat.le_total a.created_at b.created_at⟩

instance : IsTrans Message olderFirst :=
  ⟨fun _ _ _ hab hbc => Nat.le_trans hab hbc⟩

/-- Handler `GET /chats/messages` (`get_messages`): messages of the unordered pair,
sorted by `created_at` ascending (a stable sort models MongoDB's sort),
then cut by MongoDB `.limit` semantics — `limit = 0` disables truncation,
any other value keeps at most `|limit|` documents from the front of the
sorted sequence. -/
def get_messages (db : DB) (user_id peer_id : Nat) (limit : Int) : List Message :=
  let sorted :=
    (db.messageColl.filter (inConversation user_id peer_id)).insertionSort olderFirst
  if limit = 0 then sorted else sorted.take limit.natAbs

/-- A request that mutates the store: a decision, a profile upsert, or a
message send. -/
inductive Op where
  | decision (user_id target_id : Nat) (action : Action) (now : Nat)
  | profileDetails (d : ProfileDetails) (now : Nat)
  | sendMsg (user_id peer_id : Nat) (text : String) (now : Nat)

/-- Run one mutating request against the store. -/
def applyOp (db : DB) : Op → DB
  | .decision u t a now => (like_profile db u t a now).1
  | .profileDetails d now => (create_or_complete_profile db d now).1
  | .sendMsg u p text now => (send_message db u p text now).1

/-- Run a sequence of mutating requests against the store. -/
def applyOps (db : DB) : List Op → DB
  | [] => db
  | op :: ops => applyOps (applyOp db op) ops

/-- Number of ledger records of the ordered pair `(u, t)`. -/
def ledgerCount (l : List ActionRecord) (u t : Nat) : Nat :=
  (l.filter (isPair u t)).length

/-- The ledger holds a like from `u` toward `t`. -/
def hasLike (db : DB) (u t : Nat) : Prop :=
  ∃ r ∈ db.matchColl, r.user_id = u ∧ r.target_id = t ∧ r.action = Action.like

instance (db : DB) (u t : Nat) : Decidable (hasLike db u t) := by
  unfold hasLike; infer_instance

/-- A profile is eligible for discovery by `u`: stored, not the caller's
own, and its owner not yet decided upon by `u`. -/
def eligible (db : DB) (u : Nat) (p : Profile) : Prop :=
  p ∈ db.profileColl ∧ p.user_id ≠ u ∧
    ∀ r ∈ db.matchColl, ¬(r.user_id = u ∧ r.target_id = p.user_id)

instance (db : DB) (u : Nat) (p : Profile) : Decidable (eligible db u p) := by
  unfold eligible
  infer_instance

/-- The `created_at` an upsert leaves on the pair `(u, t)`: the first
existing record's, or the default `dflt` on a fresh insert. -/
def firstCreated (l : List ActionRecord) (u t : Nat) (dflt : Nat) : Nat :=
  match l.find? (isPair u t) with
  | some r => r.created_at
  | none => dflt

/-! ### Helper lemmas about the ledger upsert -/

theorem isPair_iff {u t : Nat} {r : ActionRecord} :
    isPair u t r = true ↔ r.user_id = u ∧ r.target_id = t := by
  simp [isPair]

theorem mem_upsertAction {l : List ActionRecord} {u t : Nat} {a : Action} {n : Nat}
    {r : ActionRecord} (h : r ∈ upsertAction l u t a n) :
    r ∈ l ∨ (r.user_id = u ∧ r.target_id = t) := by
  induction l with
  | nil =>
      simp [upsertAction] at h
      subst h; right; exact ⟨rfl, rfl⟩
  | cons x xs ih =>
      by_cases hx : isPair u t x
      · simp [upsertAction, hx] at h
        rcases h with h | h
        · subst h
          rcases isPair_iff.mp hx with ⟨h1, h2⟩
          exact Or.inr ⟨h1, h2⟩
        · exact Or.inl (List.mem_cons_of_mem _ h)
      · simp [upsertAction, hx] at h
        rcases h with h | h
        · exact Or.inl (h ▸ List.mem_cons_self _ _)
        · rcases ih h with h' | h'
          · exact Or.inl (List.mem_cons_of_mem _ h')
          · exact Or.inr h'

theorem mem_upsertAction_of_not_pair {l : List ActionRecord} {u t : Nat} {a : Action}
    {n : Nat} {r : ActionRecord} (h : r ∈ l)
    (hne : ¬(r.user_id = u ∧ r.target_id = t)) :
    r ∈ upsertAction l u t a n := by
  induction l with
  | nil => cases h
  | cons x xs ih =>
      by_cases hx : isPair u t x
      · rcases List.mem_cons.mp h with h' | h'
        · exact absurd (isPair_iff.mp (h' ▸ hx)) hne
        · simp [upsertAction, hx]
          exact Or.inr h'
      · rcases List.mem_cons.mp h with h' | h'
        · simp [upsertAction, hx]
          exact Or.inl h'
        · simp [upsertAction, hx]
          exact Or.inr (ih h')

theorem exists_pair_upsertAction (l : List ActionRecord) (u t : Nat) (a : Action)
    (n : Nat) :
    ∃ r ∈ upsertAction l u t a n, r.user_id = u ∧ r.target_id = t := by
  induction l with
  | nil => exact ⟨⟨u, t, a, n, n⟩, by simp [upsertAction], rfl, rfl⟩
  | cons x xs ih =>
      by_cases hx : isPair u t x
      · refine ⟨{ x with action := a, updated_at := n }, by simp [upsertAction, hx], ?_⟩
        exact isPair_iff.mp hx
      · rcases ih with ⟨r, hr, hpair⟩
        exact ⟨r, by simp [upsertAction, hx]; exact Or.inr hr, hpair⟩

theorem upsertAction_of_not_mem {l : List ActionRecord} {u t : Nat}
    (h : ∀ r ∈ l, ¬(r.user_id = u ∧ r.target_id = t)) (a : Action) (n : Nat) :
    upsertAction l u t a n = l ++ [⟨u, t, a, n, n⟩] := by
  induction l with
  | nil => rfl
  | cons x xs ih =>
      have hx : ¬ isPair u t x := fun hp =>
        h x (List.mem_cons_self _ _) (isPair_iff.mp hp)
      simp [upsertAction, hx]
      exact ih fun r hr => h r (List.mem_cons_of_mem _ hr)

theorem filter_upsertAction_self {l : List ActionRecord} {u t : Nat}
    (h : ledgerCount l u t ≤ 1) (a : Action) (n : Nat) :
    (upsertAction l u t a n).filter (isPair u t) =
      [⟨u, t, a, firstCreated l u t n, n⟩] := by
  induction l with
  | nil => simp [upsertAction, firstCreated, isPair]
  | cons x xs ih =>
      by_cases hx : isPair u t x
      · have hxs : xs.filter (isPair u t) = [] := by
          have := h
          simp [ledgerCount, List.filter_cons, hx] at this
          exact List.filter_eq_nil_iff.mpr (by simpa using this)
        rcases isPair_iff.mp hx with ⟨h1, h2⟩
        simp [upsertAction, hx, List.filter_cons, hxs, firstCreated, List.find?_cons, isPair,
          h1, h2]
      · have h' : ledgerCount xs u t ≤ 1 := by
          simpa [ledgerCount, List.filter_cons, hx] using h
        simp [upsertAction, hx, List.filter_cons, firstCreated, List.find?_cons] at ih ⊢
        simpa [firstCreated, hx] using ih h'

theorem filter_upsertAction_ne {u t u' t' : Nat} (h : ¬(u' = u ∧ t' = t))
    (l : List ActionRecord) (a : Action) (n : Nat) :
    (upsertAction l u t a n).filter (isPair u' t') = l.filter (isPair u' t') := by
  induction l with
  | nil =>
      have : ¬ isPair u' t' (⟨u, t, a, n, n⟩ : ActionRecord) := fun hp => by
        rcases isPair_iff.mp hp with ⟨h1, h2⟩
        exact h ⟨h1.symm, h2.symm⟩
      simp [upsertAction, List.filter_cons, this]
  | cons x xs ih =>
      by_cases hx : isPair u t x
      · rcases isPair_iff.mp hx with ⟨h1, h2⟩
        have hmod : isPair u' t' ({ x with action := a, updated_at := n }) =
            isPair u' t' x := by
          simp [isPair]
        by_cases hx' : isPair u' t' x
        · exfalso
          rcases isPair_iff.mp hx' with ⟨h1', h2'⟩
          exact h ⟨h1 ▸ h1'.symm ▸ rfl, h2 ▸ h2'.symm ▸ rfl⟩
        · simp [upsertAction, hx, List.filter_cons, hmod, hx']
      · simp [upsertAction, hx, List.filter_cons, ih]

theorem upserted_record_mem (l : List ActionRecord) (u t : Nat) (a : Action) (n : Nat) :
    ∃ r ∈ upsertAction l u t a n,
      r.user_id = u ∧ r.target_id = t ∧ r.action = a ∧ r.updated_at = n := by
  induction l with
  | nil => exact ⟨⟨u, t, a, n, n⟩, by simp [upsertAction], rfl, rfl, rfl, rfl⟩
  | cons x xs ih =>
      by_cases hx : isPair u t x
      · rcases isPair_iff.mp hx with ⟨h1, h2⟩
        exact ⟨{ x with action := a, updated_at := n }, by simp [upsertAction, hx],
          h1, h2, rfl, rfl⟩
      · rcases ih with ⟨r, hr, hprops⟩
        exact ⟨r, by simp [upsertAction, hx]; exact Or.inr hr, hprops⟩

theorem find?_pair_of_mem {l : List ActionRecord} {u t : Nat} {r₀ : ActionRecord}
    (hinv : ledgerCount l u t ≤ 1) (hmem : r₀ ∈ l)
    (hpair : r₀.user_id = u ∧ r₀.target_id = t) :
    l.find? (isPair u t) = some r₀ := by
  induction l with
  | nil => cases hmem
  | cons x xs ih =>
      by_cases hx : isPair u t x
      · have hxs : xs.filter (isPair u t) = [] := by
          have := hinv
          simp [ledgerCount, List.filter_cons, hx] at this
          exact List.filter_eq_nil_iff.mpr (by simpa using this)
        have hr₀ : r₀ ∈ List.filter (isPair u t) (x :: xs) :=
          List.mem_filter.mpr ⟨hmem, isPair_iff.mpr hpair⟩
        rw [List.filter_cons_of_pos hx, hxs] at hr₀
        simp at hr₀
        simp [List.find?_cons_of_pos _ hx, hr₀]
      · have hrx : r₀ ≠ x := fun he => hx (he ▸ isPair_iff.mpr hpair)
        have hmem' : r₀ ∈ xs := (List.mem_cons.mp hmem).resolve_left hrx
        have hinv' : ledgerCount xs u t ≤ 1 := by
          simpa [ledgerCount, List.filter_cons, hx] using hinv
        rw [List.find?_cons_of_neg _ hx]
        exact ih hinv' hmem'

/-! ### Effect of each request on the store -/

theorem like_profile_fst (db : DB) (u t : Nat) (a : Action) (n : Nat) :
    (like_profile db u t a n).1 =
      if u = t then db
      else { db with matchColl := upsertAction db.matchColl u t a n } := by
  by_cases h : u = t <;> simp [like_profile, h]

theorem like_profile_profileColl (db : DB) (u t : Nat) (a : Action) (n : Nat) :
    (like_profile db u t a n).1.profileColl = db.profileColl := by
  by_cases h : u = t <;> simp [like_profile, h]

theorem like_profile_messageColl (db : DB) (u t : Nat) (a : Action) (n : Nat) :
    (like_profile db u t a n).1.messageColl = db.messageColl := by
  by_cases h : u = t <;> simp [like_profile, h]

theorem applyOp_matchColl (db : DB) (op : Op) :
    (applyOp db op).matchColl = db.matchColl ∨
      ∃ u t a n, u ≠ t ∧
        (applyOp db op).matchColl = upsertAction db.matchColl u t a n := by
  cases op with
  | decision u t a n =>
      by_cases h : u = t
      · left; simp [applyOp, like_profile, h]
      · right; exact ⟨u, t, a, n, h, by simp [applyOp, like_profile, h]⟩
  | profileDetails d now => left; simp [applyOp, create_or_complete_profile]
  | sendMsg u p text now => left; simp [applyOp, send_message]

theorem ledgerCount_upsertAction (l : List ActionRecord) (u t : Nat) (a : Action)
    (n : Nat) (h : ∀ u' t', ledgerCount l u' t' ≤ 1) :
    ∀ u' t', ledgerCount (upsertAction l u t a n) u' t' ≤ 1 := by
  intro u' t'
  by_cases hp : u' = u ∧ t' = t
  · rcases hp with ⟨rfl, rfl⟩
    rw [ledgerCount, filter_upsertAction_self (h u' t') a n]
    simp
  · rw [ledgerCount, filter_upsertAction_ne hp]
    exact h u' t'

theorem ledger_inv_applyOps (db : DB) (h : ∀ u t, ledgerCount db.matchColl u t ≤ 1)
    (ops : List Op) :
    ∀ u t, ledgerCount (applyOps db ops).matchColl u t ≤ 1 := by
  induction ops generalizing db with
  | nil => simpa [applyOps] using h
  | cons op ops ih =>
      show ∀ u t, ledgerCount (applyOps (applyOp db op) ops).matchColl u t ≤ 1
      apply ih
      rcases applyOp_matchColl db op with heq | ⟨u, t, a, n, _, heq⟩
      · rw [heq]; exact h
      · rw [heq]; exact ledgerCount_upsertAction _ _ _ _ _ h

theorem pair_mem_applyOps (db : DB) (A B : Nat)
    (h : ∃ r ∈ db.matchColl, r.user_id = A ∧ r.target_id = B) (ops : List Op) :
    ∃ r ∈ (applyOps db ops).matchColl, r.user_id = A ∧ r.target_id = B := by
  induction ops generalizing db with
  | nil => simpa [applyOps] using h
  | cons op ops ih =>
      show ∃ r ∈ (applyOps (applyOp db op) ops).matchColl, _ ∧ _
      apply ih
      rcases applyOp_matchColl db op with heq | ⟨u, t, a, n, _, heq⟩
      · rw [heq]; exact h
      · rw [heq]
        rcases h with ⟨r, hr, h1, h2⟩
        by_cases hp : u = A ∧ t = B
        · rcases hp with ⟨rfl, rfl⟩
          rcases upserted_record_mem db.matchColl u t a n with ⟨r', hr', h1', h2', _⟩
          exact ⟨r', hr', h1', h2'⟩
        · refine ⟨r, mem_upsertAction_of_not_pair hr ?_, h1, h2⟩
          intro hc
          exact hp ⟨h1 ▸ hc.1.symm ▸ rfl, h2 ▸ hc.2.symm ▸ rfl⟩

/-! ### Claim theorems -/

/-- C1: for users `A ≠ B` whose ledger has no prior actions between them,
`like_profile A B` reports no match and a subsequent `like_profile B A`
reports a match; moreover the reported flag always equals the mutual-like
test evaluated on the state after the caller's like has been written. -/
theorem C1_like_then_reciprocal_matches (db : DB) (A B : Nat) (hAB : A ≠ B)
    (hfresh : ∀ r ∈ db.matchColl,
      ¬((r.user_id = A ∧ r.target_id = B) ∨ (r.user_id = B ∧ r.target_id = A)))
    (n₁ n₂ : Nat) :
    (like_profile db A B .like n₁).2 = .ok false ∧
    (like_profile (like_profile db A B .like n₁).1 B A .like n₂).2 = .ok true ∧
    (∀ (db' : DB) (n : Nat),
      (like_profile db' A B .like n).2 = .ok true ↔
        (hasLike (like_profile db' A B .like n).1 A B ∧
         hasLike (like_profile db' A B .like n).1 B A)) := by
  have hBA : B ≠ A := fun h => hAB h.symm
  have hl₁ : upsertAction db.matchColl A B .like n₁ =
      db.matchColl ++ [⟨A, B, .like, n₁, n₁⟩] :=
    upsertAction_of_not_mem (fun r hr hc => hfresh r hr (Or.inl hc)) _ _
  refine ⟨?_, ?_, ?_⟩
  · simp only [like_profile, if_neg hAB]
    simp only [hl₁]
    have hany : (db.matchColl ++ [(⟨A, B, .like, n₁, n₁⟩ : ActionRecord)]).any
        (fun o => o.user_id == B && o.target_id == A && o.action == Action.like) = false := by
      rw [List.any_eq_false]
      intro o ho
      rcases List.mem_append.mp ho with ho | ho
      · intro hc
        simp only [Bool.and_eq_true, beq_iff_eq] at hc
        exact hfresh o ho (Or.inr ⟨hc.1.1, hc.1.2⟩)
      · simp at ho
        subst ho
        simp [hAB]
    simp [hany]
  · simp only [like_profile_fst, if_neg hAB]
    simp only [like_profile, if_neg hBA]
    have hl₂ : upsertAction (db.matchColl ++ [⟨A, B, .like, n₁, n₁⟩]) B A .like n₂ =
        (db.matchColl ++ [⟨A, B, .like, n₁, n₁⟩]) ++ [⟨B, A, .like, n₂, n₂⟩] := by
      apply upsertAction_of_not_mem
      intro r hr hc
      rcases List.mem_append.mp hr with hr | hr
      · exact hfresh r hr (Or.inr hc)
      · simp at hr
        subst hr
        exact hBA (hc.1.symm ▸ rfl)
    simp only [hl₁, hl₂]
    have hwitness : ((db.matchColl ++ [(⟨A, B, .like, n₁, n₁⟩ : ActionRecord)]) ++
        [(⟨B, A, .like, n₂, n₂⟩ : ActionRecord)]).any
        (fun o => o.user_id == A && o.target_id == B && o.action == Action.like) = true := by
      rw [List.any_eq_true]
      exact ⟨⟨A, B, .like, n₁, n₁⟩, by simp, by simp⟩
    simp [hwitness]
  · intro db' n
    simp only [like_profile_fst, if_neg hAB]
    simp only [like_profile, if_neg hAB]
    constructor
    · intro h
      simp only [Except.ok.injEq, Bool.and_eq_true, List.any_eq_true, beq_iff_eq] at h
      rcases h.2 with ⟨o, ho, ⟨⟨ho1, ho2⟩, ho3⟩⟩
      refine ⟨?_, ⟨o, ho, ho1, ho2, ho3⟩⟩
      rcases upserted_record_mem db'.matchColl A B .like n with ⟨r, hr, h1, h2, h3, _⟩
      exact ⟨r, hr, h1, h2, h3⟩
    · rintro ⟨_, ⟨o, ho, h1, h2, h3⟩⟩
      have : (upsertAction db'.matchColl A B Action.like n).any
          (fun o => o.user_id == B && o.target_id == A && o.action == Action.like) = true := by
        rw [List.any_eq_true]
        exact ⟨o, ho, by simp [h1, h2, h3]⟩
      simp [this]

/-- C1 witness: the two-user scenario on an empty store. -/
theorem C1_witness :
    (like_profile ⟨[], [], []⟩ 0 1 .like 1).2 = .ok false ∧
    (like_profile (like_profile ⟨[], [], []⟩ 0 1 .like 1).1 1 0 .like 2).2 = .ok true ∧
    (∀ (db' : DB) (n : Nat),
      (like_profile db' 0 1 .like n).2 = .ok true ↔
        (hasLike (like_profile db' 0 1 .like n).1 0 1 ∧
         hasLike (like_profile db' 0 1 .like n).1 1 0)) :=
  C1_like_then_reciprocal_matches ⟨[], [], []⟩ 0 1 (by decide) (by simp) 1 2

/-- C2: a self-targeted decision is rejected with the 400
`InvalidActionError` and leaves the whole store unchanged. -/
theorem C2_self_decision_rejected (db : DB) (A : Nat) (a : Action) (n : Nat) :
    like_profile db A A a n = (db, .error invalidActionError) := by
  simp [like_profile]

/-- C3: from a store satisfying the per-pair uniqueness invariant, any
sequence of requests preserves it; a repeated decision by `A` toward `B`
overwrites `decision` and `updated_at` in place while keeping the original
`created_at`; and two successive likes leave exactly one `(A, B)` record,
with decision `like`. -/
theorem C3_ledger_unique_upsert (db : DB) (A B : Nat) (hAB : A ≠ B)
    (hinv : ∀ u t, ledgerCount db.matchColl u t ≤ 1) :
    (∀ ops : List Op, ∀ u t, ledgerCount (applyOps db ops).matchColl u t ≤ 1) ∧
    (∀ r₀ ∈ db.matchColl, r₀.user_id = A → r₀.target_id = B →
      ∀ (a : Action) (n : Nat),
        (like_profile db A B a n).1.matchColl.filter (isPair A B) =
          [⟨A, B, a, r₀.created_at, n⟩]) ∧
    (∀ n₁ n₂ : Nat,
      ((like_profile (like_profile db A B .like n₁).1 A B .like n₂).1.matchColl.filter
          (isPair A B)).length = 1 ∧
      ∀ r ∈ (like_profile (like_profile db A B .like n₁).1 A B .like n₂).1.matchColl,
        r.user_id = A → r.target_id = B → r.action = .like) := by
  refine ⟨fun ops => ledger_inv_applyOps db hinv ops, ?_, ?_⟩
  · intro r₀ hmem h1 h2 a n
    rw [like_profile_fst, if_neg hAB]
    rw [filter_upsertAction_self (hinv A B) a n]
    rw [firstCreated, find?_pair_of_mem (hinv A B) hmem ⟨h1, h2⟩]
  · intro n₁ n₂
    have hfst₁ : (like_profile db A B .like n₁).1.matchColl =
        upsertAction db.matchColl A B .like n₁ := by
      rw [like_profile_fst, if_neg hAB]
    have hinv₁ : ∀ u t,
        ledgerCount (like_profile db A B .like n₁).1.matchColl u t ≤ 1 := by
      rw [hfst₁]
      exact ledgerCount_upsertAction _ _ _ _ _ hinv
    have hfst₂ : (like_profile (like_profile db A B .like n₁).1 A B .like n₂).1.matchColl =
        upsertAction (like_profile db A B .like n₁).1.matchColl A B .like n₂ := by
      rw [like_profile_fst, if_neg hAB]
    have hfilter := filter_upsertAction_self (l := (like_profile db A B .like n₁).1.matchColl)
      (hinv₁ A B) .like n₂
    constructor
    · rw [hfst₂, hfilter]
      rfl
    · intro r hr h1 h2
      have : r ∈ (like_profile (like_profile db A B .like n₁).1 A B
          .like n₂).1.matchColl.filter (isPair A B) :=
        List.mem_filter.mpr ⟨hr, isPair_iff.mpr ⟨h1, h2⟩⟩
      rw [hfst₂, hfilter] at this
      simp at this
      rw [this]

/-- C3 witness: the double-like scenario on an empty store. -/
theorem C3_witness :
    (∀ ops : List Op, ∀ u t,
      ledgerCount (applyOps ⟨[], [], []⟩ ops).matchColl u t ≤ 1) ∧
    (∀ r₀ ∈ (⟨[], [], []⟩ : DB).matchColl, r₀.user_id = 0 → r₀.target_id = 1 →
      ∀ (a : Action) (n : Nat),
        (like_profile ⟨[], [], []⟩ 0 1 a n).1.matchColl.filter (isPair 0 1) =
          [⟨0, 1, a, r₀.created_at, n⟩]) ∧
    (∀ n₁ n₂ : Nat,
      ((like_profile (like_profile ⟨[], [], []⟩ 0 1 .like n₁).1 0 1
          .like n₂).1.matchColl.filter (isPair 0 1)).length = 1 ∧
      ∀ r ∈ (like_profile (like_profile ⟨[], [], []⟩ 0 1 .like n₁).1 0 1
          .like n₂).1.matchColl,
        r.user_id = 0 → r.target_id = 1 → r.action = .like) :=
  C3_ledger_unique_upsert ⟨[], [], []⟩ 0 1 (by decide)
    (by intro u t; simp [ledgerCount])

/-- C8: recording any decision (in particular a match-breaking dislike)
leaves the message log untouched, so every conversation query returns the
same messages, in the same order, before and after the decision. -/
theorem C8_messages_unaffected_by_decisions (db : DB) (u t : Nat) (a : Action)
    (n : Nat) :
    (like_profile db u t a n).1.messageColl = db.messageColl ∧
    ∀ (A B : Nat) (limit : Int),
      get_messages (like_profile db u t a n).1 A B limit =
        get_messages db A B limit := by
  refine ⟨like_profile_messageColl db u t a n, ?_⟩
  intro A B limit
  simp [get_messages, like_profile_messageColl]

theorem mem_list_chats {db : DB} {u : Nat} {p : Profile} :
    p ∈ list_chats db u ↔
      ∃ r ∈ db.matchColl, r.user_id = u ∧ r.action = .like ∧
        (∃ o ∈ db.matchColl,
          o.user_id = r.target_id ∧ o.target_id = u ∧ o.action = .like) ∧
        db.profileColl.find? (fun q => q.user_id == r.target_id) = some p := by
  unfold list_chats
  rw [List.mem_filterMap]
  constructor
  · rintro ⟨r, hr, hf⟩
    rw [List.mem_filter] at hr
    rcases hr with ⟨hrm, hrp⟩
    simp only [Bool.and_eq_true, beq_iff_eq] at hrp
    by_cases hany : (db.matchColl.any fun o =>
        o.user_id == r.target_id && o.target_id == u && o.action == Action.like) = true
    · rw [if_pos hany] at hf
      refine ⟨r, hrm, hrp.1, hrp.2, ?_, hf⟩
      rw [List.any_eq_true] at hany
      rcases hany with ⟨o, ho, hop⟩
      simp only [Bool.and_eq_true, beq_iff_eq] at hop
      exact ⟨o, ho, hop.1.1, hop.1.2, hop.2⟩
    · rw [if_neg hany] at hf
      cases hf
  · rintro ⟨r, hrm, h1, h2, ⟨o, ho, ho1, ho2, ho3⟩, hfind⟩
    refine ⟨r, List.mem_filter.mpr ⟨hrm, by simp [h1, h2]⟩, ?_⟩
    have hany : (db.matchColl.any fun o =>
        o.user_id == r.target_id && o.target_id == u && o.action == Action.like) = true := by
      rw [List.any_eq_true]
      exact ⟨o, ho, by simp [ho1, ho2, ho3]⟩
    rw [if_pos hany]
    exact hfind

/-- C6 counterexample: with mutual likes between users 0 and 1 but an empty
profile store, user 1 does not appear in user 0's chat list, so mutual likes
alone do not make a peer appear. -/
theorem C6_counterexample :
    hasLike ⟨[⟨0, 1, .like, 0, 0⟩, ⟨1, 0, .like, 0, 0⟩], [], []⟩ 0 1 ∧
    hasLike ⟨[⟨0, 1, .like, 0, 0⟩, ⟨1, 0, .like, 0, 0⟩], [], []⟩ 1 0 ∧
    ¬∃ p ∈ list_chats ⟨[⟨0, 1, .like, 0, 0⟩, ⟨1, 0, .like, 0, 0⟩], [], []⟩ 0,
      p.user_id = 1 := by
  refine ⟨by decide, by decide, ?_⟩
  rintro ⟨p, hp, -⟩
  simp [list_chats] at hp

/-- C6 (amended): `B`'s profile appears in `list_chats A` iff the ledger
holds likes in both directions and a profile document for `B` exists; in
particular the iff applies symmetrically to `A` in `list_chats B`. -/
theorem C6_match_peers_iff (db : DB) (A B : Nat) :
    (∃ p ∈ list_chats db A, p.user_id = B) ↔
      hasLike db A B ∧ hasLike db B A ∧ ∃ q ∈ db.profileColl, q.user_id = B := by
  constructor
  · rintro ⟨p, hp, hpB⟩
    rcases mem_list_chats.mp hp with ⟨r, hrm, h1, h2, ⟨o, ho, ho1, ho2, ho3⟩, hfind⟩
    have hpt : p.user_id = r.target_id := by
      have := List.find?_some hfind
      simpa using this
    have htB : r.target_id = B := hpt ▸ hpB
    exact ⟨⟨r, hrm, h1, htB, h2⟩, ⟨o, ho, htB ▸ ho1, ho2, ho3⟩,
      ⟨p, List.mem_of_find?_eq_some hfind, hpB⟩⟩
  · rintro ⟨⟨r, hrm, hr1, hr2, hr3⟩, ⟨o, ho, ho1, ho2, ho3⟩, ⟨q, hq, hqB⟩⟩
    have hsome : (db.profileColl.find? fun x => x.user_id == r.target_id).isSome := by
      rw [List.find?_isSome]
      exact ⟨q, hq, by simp [hqB, hr2]⟩
    obtain ⟨p, hfind⟩ := Option.isSome_iff_exists.mp hsome
    have hpB : p.user_id = B := by
      have := List.find?_some hfind
      simp at this
      rw [this, hr2]
    exact ⟨p, mem_list_chats.mpr
      ⟨r, hrm, hr1, hr3, ⟨o, ho, hr2 ▸ ho1, ho2, ho3⟩, hfind⟩, hpB⟩

/-- C9: a mutually-matched peer with no stored profile is silently omitted
from the chat list, and when no matched peer of the caller has a stored
profile the chat list is the empty list rather than an error. -/
theorem C9_missing_profile_omits_peer (db : DB) (A B : Nat)
    (_hAB : hasLike db A B) (_hBA : hasLike db B A)
    (hnoprof : ∀ p ∈ db.profileColl, p.user_id ≠ B) :
    (∀ p ∈ list_chats db A, p.user_id ≠ B) ∧
    ((∀ t, hasLike db A t → hasLike db t A → ∀ p ∈ db.profileColl, p.user_id ≠ t) →
      list_chats db A = []) := by
  constructor
  · intro p hp hpB
    rcases mem_list_chats.mp hp with ⟨r, _, _, _, _, hfind⟩
    exact hnoprof p (List.mem_of_find?_eq_some hfind) hpB
  · intro hall
    unfold list_chats
    rw [List.filterMap_eq_nil_iff]
    intro r hr
    rw [List.mem_filter] at hr
    rcases hr with ⟨hrm, hrp⟩
    simp only [Bool.and_eq_true, beq_iff_eq] at hrp
    by_cases hany : (db.matchColl.any fun o =>
        o.user_id == r.target_id && o.target_id == A && o.action == Action.like) = true
    · rw [if_pos hany]
      rw [List.any_eq_true] at hany
      rcases hany with ⟨o, ho, hop⟩
      simp only [Bool.and_eq_true, beq_iff_eq] at hop
      have hnop := hall r.target_id ⟨r, hrm, hrp.1, rfl, hrp.2⟩
        ⟨o, ho, hop.1.1, hop.1.2, hop.2⟩
      rw [List.find?_eq_none]
      intro q hq
      simp [hnop q hq]
    · rw [if_neg hany]

/-- C9 witness: mutual likes between users 0 and 1 over an empty profile
store yield an empty chat list. -/
theorem C9_witness :
    (∀ p ∈ list_chats ⟨[⟨0, 1, .like, 0, 0⟩, ⟨1, 0, .like, 0, 0⟩], [], []⟩ 0,
      p.user_id ≠ 1) ∧
    ((∀ t, hasLike ⟨[⟨0, 1, .like, 0, 0⟩, ⟨1, 0, .like, 0, 0⟩], [], []⟩ 0 t →
        hasLike ⟨[⟨0, 1, .like, 0, 0⟩, ⟨1, 0, .like, 0, 0⟩], [], []⟩ t 0 →
        ∀ p ∈ (⟨[⟨0, 1, .like, 0, 0⟩, ⟨1, 0, .like, 0, 0⟩], [], []⟩ : DB).profileColl,
          p.user_id ≠ t) →
      list_chats ⟨[⟨0, 1, .like, 0, 0⟩, ⟨1, 0, .like, 0, 0⟩], [], []⟩ 0 = []) :=
  C9_missing_profile_omits_peer ⟨[⟨0, 1, .like, 0, 0⟩, ⟨1, 0, .like, 0, 0⟩], [], []⟩
    0 1 (by decide) (by decide) (by simp)

/-- C7 counterexample: with one stored message between users 0 and 1, the
query with `limit = 0` returns that message, so the result is not truncated
to at most `0` entries as the claim, read at every limit, would require. -/
theorem C7_counterexample :
    get_messages ⟨[], [], [⟨0, 1, "hi", 10⟩]⟩ 0 1 0 = [⟨0, 1, "hi", 10⟩] ∧
    ¬((get_messages ⟨[], [], [⟨0, 1, "hi", 10⟩]⟩ 0 1 0).length ≤ 0) := by
  decide

/-- C7 (amended): for every nonzero `limit`, the conversation query returns
only messages of the unordered pair, in ascending `created_at` order, and
the result together with some remainder of pairwise later-or-equal messages
is exactly the pair's messages — i.e. at most `|limit|` entries taken from
the oldest end, all of them once the pair has at most `|limit|` messages. -/
theorem C7_conversation_window (db : DB) (A B : Nat) (limit : Int)
    (hl : limit ≠ 0) :
    (∀ m ∈ get_messages db A B limit, inConversation A B m = true) ∧
    (get_messages db A B limit).Pairwise olderFirst ∧
    ∃ rest,
      (get_messages db A B limit ++ rest).Perm
        (db.messageColl.filter (inConversation A B)) ∧
      (∀ m ∈ get_messages db A B limit, ∀ m' ∈ rest,
        m.created_at ≤ m'.created_at) ∧
      (get_messages db A B limit).length =
        min limit.natAbs (db.messageColl.filter (inConversation A B)).length := by
  have hsorted := List.sorted_insertionSort olderFirst
    (db.messageColl.filter (inConversation A B))
  have hperm := List.perm_insertionSort olderFirst
    (db.messageColl.filter (inConversation A B))
  have hget : get_messages db A B limit =
      ((db.messageColl.filter (inConversation A B)).insertionSort olderFirst).take
        limit.natAbs := by
    simp [get_messages, hl]
  refine ⟨?_, ?_, ?_⟩
  · intro m hm
    rw [hget] at hm
    have hms : m ∈ (db.messageColl.filter (inConversation A B)).insertionSort olderFirst :=
      List.mem_of_mem_take hm
    exact (List.mem_filter.mp (hperm.mem_iff.mp hms)).2
  · rw [hget]
    exact hsorted.sublist (List.take_sublist _ _)
  · refine ⟨((db.messageColl.filter (inConversation A B)).insertionSort olderFirst).drop
      limit.natAbs, ?_, ?_, ?_⟩
    · rw [hget, List.take_append_drop]
      exact hperm
    · intro m hm m' hm'
      rw [hget] at hm
      have hpw : List.Pairwise olderFirst
          ((db.messageColl.filter (inConversation A B)).insertionSort olderFirst) :=
        hsorted
      rw [← List.take_append_drop limit.natAbs
        ((db.messageColl.filter (inConversation A B)).insertionSort olderFirst),
        List.pairwise_append] at hpw
      exact hpw.2.2 m hm m' hm'
    · rw [hget, List.length_take, hperm.length_eq]

/-- C7 witness: two messages between users 0 and 1, queried with limit 1. -/
theorem C7_witness :
    (∀ m ∈ get_messages ⟨[], [], [⟨1, 0, "yo", 20⟩, ⟨0, 1, "hi", 10⟩]⟩ 0 1 1,
      inConversation 0 1 m = true) ∧
    (get_messages ⟨[], [], [⟨1, 0, "yo", 20⟩, ⟨0, 1, "hi", 10⟩]⟩ 0 1 1).Pairwise
      olderFirst ∧
    ∃ rest,
      (get_messages ⟨[], [], [⟨1, 0, "yo", 20⟩, ⟨0, 1, "hi", 10⟩]⟩ 0 1 1 ++
        rest).Perm
        ((⟨[], [], [⟨1, 0, "yo", 20⟩, ⟨0, 1, "hi", 10⟩]⟩ : DB).messageColl.filter
          (inConversation 0 1)) ∧
      (∀ m ∈ get_messages ⟨[], [], [⟨1, 0, "yo", 20⟩, ⟨0, 1, "hi", 10⟩]⟩ 0 1 1,
        ∀ m' ∈ rest, m.created_at ≤ m'.created_at) ∧
      (get_messages ⟨[], [], [⟨1, 0, "yo", 20⟩, ⟨0, 1, "hi", 10⟩]⟩ 0 1 1).length =
        min (1 : Int).natAbs
          (((⟨[], [], [⟨1, 0, "yo", 20⟩, ⟨0, 1, "hi", 10⟩]⟩ : DB)).messageColl.filter
            (inConversation 0 1)).length :=
  C7_conversation_window ⟨[], [], [⟨1, 0, "yo", 20⟩, ⟨0, 1, "hi", 10⟩]⟩ 0 1 1
    (by decide)

/-- C10: a zero limit disables truncation (all messages of the pair are
returned), while every positive limit bounds the result length. -/
theorem C10_zero_limit_returns_all (db : DB) (A B : Nat) :
    (get_messages db A B 0).Perm (db.messageColl.filter (inConversation A B)) ∧
    ∀ limit : Int, 0 < limit →
      (get_messages db A B limit).length ≤ limit.natAbs := by
  constructor
  · simpa [get_messages] using
      List.perm_insertionSort olderFirst (db.messageColl.filter (inConversation A B))
  · intro limit hlim
    have hl : limit ≠ 0 := by omega
    simp only [get_messages, if_neg hl]
    exact List.length_take_le _ _

/-- C10 witness: one stored message between users 0 and 1. -/
theorem C10_witness :
    (get_messages ⟨[], [], [⟨0, 1, "hi", 10⟩]⟩ 0 1 0).Perm
      ((⟨[], [], [⟨0, 1, "hi", 10⟩]⟩ : DB).messageColl.filter (inConversation 0 1)) ∧
    (get_messages ⟨[], [], [⟨0, 1, "hi", 10⟩]⟩ 0 1 5).length ≤ (5 : Int).natAbs :=
  ⟨(C10_zero_limit_returns_all ⟨[], [], [⟨0, 1, "hi", 10⟩]⟩ 0 1).1,
   (C10_zero_limit_returns_all ⟨[], [], [⟨0, 1, "hi", 10⟩]⟩ 0 1).2 5 (by decide)⟩

/-! ### Discovery-selector lemmas -/

theorem mem_discovery_pool {db : DB} {u : Nat} {q : Profile} :
    q ∈ (db.profileColl.filter fun p => !(p.user_id == u)).insertionSort moreRecent ↔
      q ∈ db.profileColl ∧ q.user_id ≠ u := by
  rw [(List.perm_insertionSort moreRecent _).mem_iff, List.mem_filter]
  simp

theorem not_acted_iff {db : DB} {u : Nat} {q : Profile} :
    (!((actedIds db u).contains q.user_id)) = true ↔
      ∀ r ∈ db.matchColl, ¬(r.user_id = u ∧ r.target_id = q.user_id) := by
  simp only [actedIds, Bool.not_eq_true', Bool.eq_false_iff, Ne,
    List.contains_iff_exists_mem_beq, List.mem_map, List.mem_filter, beq_iff_eq]
  constructor
  · rintro h r hr ⟨h1, h2⟩
    exact h ⟨r.target_id, ⟨r, ⟨hr, h1⟩, rfl⟩, h2.symm⟩
  · rintro h ⟨x, ⟨r, ⟨hr, h1⟩, hx⟩, h2⟩
    exact h r hr ⟨h1, hx.symm ▸ h2.symm ▸ rfl⟩

theorem find?_max_of_pairwise {l : List Profile} {pred : Profile → Bool} {p : Profile}
    (hpw : l.Pairwise moreRecent) (hf : l.find? pred = some p) :
    ∀ q ∈ l, pred q = true → q.updated_at ≤ p.updated_at := by
  induction l with
  | nil => cases hf
  | cons x xs ih =>
      by_cases hx : pred x
      · rw [List.find?_cons_of_pos _ hx] at hf
        injection hf with hf
        subst hf
        intro q hq hqp
        rcases List.mem_cons.mp hq with rfl | hq'
        · exact Nat.le_refl _
        · exact (List.pairwise_cons.mp hpw).1 q hq'
      · rw [List.find?_cons_of_neg _ hx] at hf
        intro q hq hqp
        rcases List.mem_cons.mp hq with rfl | hq'
        · exact absurd hqp (by simp [hx])
        · exact ih (List.pairwise_cons.mp hpw).2 hf q hq' hqp

theorem eligible_iff_pool {db : DB} {u : Nat} {q : Profile} :
    eligible db u q ↔
      (q ∈ (db.profileColl.filter fun p => !(p.user_id == u)).insertionSort moreRecent ∧
        (!((actedIds db u).contains q.user_id)) = true) := by
  rw [mem_discovery_pool, not_acted_iff]
  unfold eligible
  tauto

/-- C4: discovery never returns the caller's own profile nor the profile of
any user the caller has a recorded decision on; in particular, after a
decision on `B` (for example a dislike), no later `next_profile` call for
`A` returns a profile owned by `B`, whatever requests (including profile
updates for `B`) happen in between. -/
theorem C4_decided_targets_never_shown :
    (∀ (db : DB) (A : Nat) (p : Profile), next_profile db A = some p →
      p.user_id ≠ A ∧
        ∀ r ∈ db.matchColl, ¬(r.user_id = A ∧ r.target_id = p.user_id)) ∧
    (∀ (db : DB) (A B : Nat) (a : Action) (n : Nat), A ≠ B →
      ∀ (ops : List Op) (p : Profile),
        next_profile (applyOps (like_profile db A B a n).1 ops) A = some p →
        p.user_id ≠ B) := by
  have part1 : ∀ (db : DB) (A : Nat) (p : Profile), next_profile db A = some p →
      p.user_id ≠ A ∧
        ∀ r ∈ db.matchColl, ¬(r.user_id = A ∧ r.target_id = p.user_id) := by
    intro db A p hp
    simp only [next_profile] at hp
    have hmem := List.mem_of_find?_eq_some hp
    have hpred := List.find?_some hp
    have he : eligible db A p := eligible_iff_pool.mpr ⟨hmem, hpred⟩
    exact ⟨he.2.1, he.2.2⟩
  refine ⟨part1, ?_⟩
  intro db A B a n hAB ops p hp hpB
  have hpair : ∃ r ∈ (like_profile db A B a n).1.matchColl,
      r.user_id = A ∧ r.target_id = B := by
    rw [like_profile_fst, if_neg hAB]
    rcases upserted_record_mem db.matchColl A B a n with ⟨r, hr, h1, h2, _⟩
    exact ⟨r, hr, h1, h2⟩
  rcases pair_mem_applyOps _ A B hpair ops with ⟨r, hr, h1, h2⟩
  exact (part1 _ A p hp).2 r hr ⟨h1, h2.trans hpB.symm⟩

/-- C4 witness: user 0 dislikes user 1; discovery then returns user 2's
profile, which is neither 0's own nor the decided-on user 1's. -/
theorem C4_witness :
    (⟨2, "c2", "", [], [], none, 0, 20⟩ : Profile).user_id ≠ 0 ∧
    (⟨2, "c2", "", [], [], none, 0, 20⟩ : Profile).user_id ≠ 1 :=
  ⟨(C4_decided_targets_never_shown.1
      (applyOps (like_profile ⟨[], [⟨1, "c1", "", [], [], none, 0, 10⟩,
        ⟨2, "c2", "", [], [], none, 0, 20⟩], []⟩ 0 1 .dislike 5).1 []) 0
      ⟨2, "c2", "", [], [], none, 0, 20⟩ (by decide)).1,
   C4_decided_targets_never_shown.2
      ⟨[], [⟨1, "c1", "", [], [], none, 0, 10⟩,
        ⟨2, "c2", "", [], [], none, 0, 20⟩], []⟩ 0 1 .dislike 5 (by decide) []
      ⟨2, "c2", "", [], [], none, 0, 20⟩ (by decide)⟩

/-- C5: the profile returned by discovery is an eligible candidate of
maximal `updated_at`; a strictly less recently updated eligible candidate
is never returned while a more recent one is still eligible; and when any
eligible candidate exists, discovery does not return the sentinel. -/
theorem C5_most_recent_eligible_first (db : DB) (A : Nat) :
    (∀ p, next_profile db A = some p →
      eligible db A p ∧ ∀ q, eligible db A q → q.updated_at ≤ p.updated_at) ∧
    (∀ p₁ p₂, next_profile db A = some p₁ → eligible db A p₂ →
      ¬(p₁.updated_at < p₂.updated_at)) ∧
    ((∃ q, eligible db A q) → next_profile db A ≠ none) := by
  have hpw : ((db.profileColl.filter fun p => !(p.user_id == A)).insertionSort
      moreRecent).Pairwise moreRecent :=
    List.sorted_insertionSort moreRecent _
  have hmax : ∀ p, next_profile db A = some p →
      eligible db A p ∧ ∀ q, eligible db A q → q.updated_at ≤ p.updated_at := by
    intro p hp
    simp only [next_profile] at hp
    have hmem := List.mem_of_find?_eq_some hp
    have hpred := List.find?_some hp
    refine ⟨eligible_iff_pool.mpr ⟨hmem, hpred⟩, ?_⟩
    intro q hq
    rcases eligible_iff_pool.mp hq with ⟨hqm, hqp⟩
    exact find?_max_of_pairwise hpw hp q hqm hqp
  refine ⟨hmax, ?_, ?_⟩
  · intro p₁ p₂ hp₁ hp₂ hlt
    exact absurd ((hmax p₁ hp₁).2 p₂ hp₂) (Nat.not_le.mpr hlt)
  · rintro ⟨q, hq⟩ hnone
    rcases eligible_iff_pool.mp hq with ⟨hqm, hqp⟩
    simp only [next_profile] at hnone
    rw [List.find?_eq_none] at hnone
    exact absurd hqp (by simpa using hnone q hqm)

/-- C5 witness: two eligible candidates with timestamps 10 and 20; the one
updated at 20 is the maximal pick, the older one is not returnable first,
and the pool being nonempty rules out the sentinel. -/
theorem C5_witness :
    (eligible ⟨[], [⟨1, "c1", "", [], [], none, 0, 10⟩,
        ⟨2, "c2", "", [], [], none, 0, 20⟩], []⟩ 0
        ⟨2, "c2", "", [], [], none, 0, 20⟩ ∧
      ∀ q, eligible ⟨[], [⟨1, "c1", "", [], [], none, 0, 10⟩,
        ⟨2, "c2", "", [], [], none, 0, 20⟩], []⟩ 0 q →
        q.updated_at ≤ (⟨2, "c2", "", [], [], none, 0, 20⟩ : Profile).updated_at) ∧
    ¬((⟨2, "c2", "", [], [], none, 0, 20⟩ : Profile).updated_at <
      (⟨1, "c1", "", [], [], none, 0, 10⟩ : Profile).updated_at) ∧
    next_profile ⟨[], [⟨1, "c1", "", [], [], none, 0, 10⟩,
      ⟨2, "c2", "", [], [], none, 0, 20⟩], []⟩ 0 ≠ none :=
  ⟨(C5_most_recent_eligible_first ⟨[], [⟨1, "c1", "", [], [], none, 0, 10⟩,
      ⟨2, "c2", "", [], [], none, 0, 20⟩], []⟩ 0).1
      ⟨2, "c2", "", [], [], none, 0, 20⟩ (by decide),
   (C5_most_recent_eligible_first ⟨[], [⟨1, "c1", "", [], [], none, 0, 10⟩,
      ⟨2, "c2", "", [], [], none, 0, 20⟩], []⟩ 0).2.1
      ⟨2, "c2", "", [], [], none, 0, 20⟩ ⟨1, "c1", "", [], [], none, 0, 10⟩
      (by decide) (by decide),
   (C5_most_recent_eligible_first ⟨[], [⟨1, "c1", "", [], [], none, 0, 10⟩,
      ⟨2, "c2", "", [], [], none, 0, 20⟩], []⟩ 0).2.2
      ⟨⟨1, "c1", "", [], [], none, 0, 10⟩, by decide⟩⟩

end Roomance
